import Mathlib

/-!
Shallow embedding of the statistical pipeline of the
`how_events_move_markets` repository, and proofs about it.

Source files embedded here:
* `scripts/analyze_event_spikes_and_dips.py` (anomaly detection,
  event loading, attribution, aggregate statistics, `main`),
* `scripts/events_to_currency_ols.py` (country extraction, event-feature
  rows, train/test OLS fit `fit_ols_for_currency`),
* `scripts/run_ols_regression.py` (event loading and merge checks),
* `scripts/make_visuals.py` (USD-strength panel and the zero-count
  column filter of `build_ols_event_treemap`),
* `scripts/update_historical_currencies.py` / `scripts/historical_currencies.py`
  (percentage-change derivation `add_pct_change`).

Numbers are modelled as exact rationals (`ℚ`); pandas missing values as
`Option`; dates as integer day numbers (with a Gregorian day-number
conversion for the raw `YYYYMMDD` / ISO date strings that the loaders
parse).
-/

namespace EventsMarkets

/-! ### Basic numerics

`mean` and `sample_var` model `pandas.Series.mean()` and
`pandas.Series.std()**2` (pandas uses the sample statistic, `ddof=1`).
In `ℚ`, division by zero yields `0`; for a 1-element series pandas
returns `NaN` for `std`, and in both cases the detector below emits no
anomalies, so the observable behaviour agrees. -/

def mean (l : List ℚ) : ℚ := l.sum / l.length

def sample_var (l : List ℚ) : ℚ :=
  ((l.map (fun v => (v - mean l) ^ 2)).sum) / ((l.length - 1 : ℕ) : ℚ)

/-- Round a rational to the nearest integer, ties to even: the rounding
used by `numpy`/`pandas` `.round()` (modelled on exact rationals rather
than binary floating point). -/
def round_half_even (x : ℚ) : ℤ :=
  let f := ⌊x⌋
  let r := x - (f : ℚ)
  if r < 1/2 then f
  else if 1/2 < r then f + 1
  else if Even f then f else f + 1

/-- `Series.round(3)`: round to 3 decimal places (half to even). -/
def round3 (x : ℚ) : ℚ := ((round_half_even (1000 * x) : ℤ) : ℚ) / 1000

/-- `Series.round(2)`: round to 2 decimal places (half to even). -/
def round2 (x : ℚ) : ℚ := ((round_half_even (100 * x) : ℤ) : ℚ) / 100

/-! ### Anomaly detection (`analyze_event_spikes_and_dips.py`)

`detect_spikes_and_dips` walks over every column of the currency frame
except one literally named `"DATE"`, drops missing values, computes the
whole-column mean and (sample) standard deviation, skips the column when
the deviation is zero, and flags dates whose z-score `z = (v - μ)/σ`
satisfies `z ≥ 2` (SPIKE) or `z ≤ -2` (DIP).  Over `ℚ` we avoid the
square root: for `σ > 0`, `z ≥ Z ↔ v - μ ≥ 0 ∧ (v - μ)² ≥ Z²·σ²` and
`z ≤ -Z ↔ v - μ ≤ 0 ∧ (v - μ)² ≥ Z²·σ²`, where `σ² = sample_var`. -/

inductive Direction
  | SPIKE
  | DIP
deriving DecidableEq, Repr

/-- A data-frame column: (date, optional value) rows, in index order. -/
abbrev Column := List (ℤ × Option ℚ)

/-- The non-missing values of a column (`series.dropna()`). -/
def pct_vals (col : Column) : List ℚ := col.filterMap (·.2)

/-- `Z_THRESHOLD = 2` from `analyze_event_spikes_and_dips.py`. -/
def zThreshold : ℚ := 2

/-- One column of `detect_spikes_and_dips`: the spike dates (in index
order) followed by the dip dates (in index order), exactly as the
source appends spikes first and dips second. -/
def detect_col (col : Column) : List (ℤ × Direction) :=
  let vals := pct_vals col
  if vals = [] then []
  else
    let μ := mean vals
    let s2 := sample_var vals
    if s2 = 0 then []
    else
      (col.filterMap (fun p =>
        match p.2 with
        | some v =>
            if 0 ≤ v - μ ∧ zThreshold ^ 2 * s2 ≤ (v - μ) ^ 2
            then some (p.1, Direction.SPIKE) else none
        | none => none)) ++
      (col.filterMap (fun p =>
        match p.2 with
        | some v =>
            if v - μ ≤ 0 ∧ zThreshold ^ 2 * s2 ≤ (v - μ) ^ 2
            then some (p.1, Direction.DIP) else none
        | none => none))

/-- `detect_spikes_and_dips`: anomaly records `(DATE, CURRENCY, TYPE)`
accumulated over all columns (the column literally named `"DATE"` is
skipped by the source loop). -/
def detect_spikes_and_dips (df : List (String × Column)) :
    List (ℤ × String × Direction) :=
  (df.filter (fun c => c.1 ≠ "DATE")).flatMap
    (fun c => (detect_col c.2).map (fun a => (a.1, c.1, a.2)))

/-! #### Facts used for claim C1 -/

lemma sample_var_nonneg (l : List ℚ) : 0 ≤ sample_var l := by
  unfold sample_var
  apply div_nonneg
  · apply List.sum_nonneg
    intro x hx
    obtain ⟨v, _, rfl⟩ := List.mem_map.1 hx
    positivity
  · positivity

lemma sample_var_nil : sample_var [] = 0 := by
  simp [sample_var]

lemma pos_of_sample_var_ne_zero {l : List ℚ} (h : sample_var l ≠ 0) :
    0 < sample_var l := lt_of_le_of_ne (sample_var_nonneg l) (Ne.symm h)

/-- C1: For every column (in particular every percentage-change column)
with threshold `Z = zThreshold = 2`, the detector emits an anomaly
`(d, dir)` exactly when the column holds a value `v` at `d` whose
z-score `z = (v-μ)/σ` over the whole column's non-missing values
satisfies `|z| ≥ Z` — expressed root-free as `(v-μ)² ≥ Z²·σ²` with
`σ² = sample_var` — tagged SPIKE when `z > 0` (`μ < v`) and DIP when
`z < 0` (`v < μ`); and every column with `σ = 0` (e.g. a constant
series) yields no anomalies and no error. -/
theorem C1_zscore_anomaly_characterization :
    (∀ (col : Column) (d : ℤ) (dir : Direction),
        (d, dir) ∈ detect_col col ↔
          ∃ v : ℚ, (d, some v) ∈ col ∧
            sample_var (pct_vals col) ≠ 0 ∧
            zThreshold ^ 2 * sample_var (pct_vals col) ≤
              (v - mean (pct_vals col)) ^ 2 ∧
            dir = (if mean (pct_vals col) < v
                   then Direction.SPIKE else Direction.DIP)) ∧
    (∀ col : Column, sample_var (pct_vals col) = 0 → detect_col col = []) := by
  have hzero : ∀ col : Column, sample_var (pct_vals col) = 0 →
      detect_col col = [] := by
    intro col h
    unfold detect_col
    by_cases hemp : pct_vals col = []
    · simp [hemp]
    · simp [hemp, h]
  refine ⟨?_, hzero⟩
  intro col d dir
  by_cases hs2 : sample_var (pct_vals col) = 0
  · rw [hzero col hs2]
    simp [hs2]
  · have hemp : pct_vals col ≠ [] := by
      intro h; exact hs2 (by rw [h, sample_var_nil])
    have hspos : 0 < sample_var (pct_vals col) :=
      pos_of_sample_var_ne_zero hs2
    set μ := mean (pct_vals col) with hμ
    set s2 := sample_var (pct_vals col) with hs2def
    have hdc : detect_col col =
        (col.filterMap (fun p =>
          match p.2 with
          | some v =>
              if 0 ≤ v - μ ∧ zThreshold ^ 2 * s2 ≤ (v - μ) ^ 2
              then some (p.1, Direction.SPIKE) else none
          | none => none)) ++
        (col.filterMap (fun p =>
          match p.2 with
          | some v =>
              if v - μ ≤ 0 ∧ zThreshold ^ 2 * s2 ≤ (v - μ) ^ 2
              then some (p.1, Direction.DIP) else none
          | none => none)) := by
      unfold detect_col
      rw [if_neg hemp, if_neg hs2]
    -- a value meeting the threshold cannot equal the mean
    have hne : ∀ v : ℚ, zThreshold ^ 2 * s2 ≤ (v - μ) ^ 2 → v ≠ μ := by
      intro v hv heq
      rw [heq, sub_self] at hv
      have : zThreshold ^ 2 * s2 > 0 := by
        have : (0:ℚ) < zThreshold ^ 2 := by norm_num [zThreshold]
        exact mul_pos this hspos
      simp at hv
      nlinarith
    rw [hdc]
    constructor
    · intro hmem
      rcases List.mem_append.1 hmem with hsp | hdp
      · obtain ⟨p, hp, hfp⟩ := List.mem_filterMap.1 hsp
        rcases p with ⟨d', v?⟩
        cases v? with
        | none => simp at hfp
        | some v =>
          simp only at hfp
          by_cases hc : 0 ≤ v - μ ∧ zThreshold ^ 2 * s2 ≤ (v - μ) ^ 2
          · rw [if_pos hc] at hfp
            obtain ⟨hd, hdir⟩ := Prod.mk.injEq .. ▸ (Option.some.injEq .. ▸ hfp)
            refine ⟨v, ?_, hs2, hc.2, ?_⟩
            · rwa [← hd]
            · have hlt : μ < v := by
                rcases lt_or_eq_of_le hc.1 with h | h
                · linarith
                · exact absurd (by linarith : v = μ) (hne v hc.2)
              rw [← hdir, if_pos hlt]
          · rw [if_neg hc] at hfp; exact absurd hfp (by simp)
      · obtain ⟨p, hp, hfp⟩ := List.mem_filterMap.1 hdp
        rcases p with ⟨d', v?⟩
        cases v? with
        | none => simp at hfp
        | some v =>
          simp only at hfp
          by_cases hc : v - μ ≤ 0 ∧ zThreshold ^ 2 * s2 ≤ (v - μ) ^ 2
          · rw [if_pos hc] at hfp
            obtain ⟨hd, hdir⟩ := Prod.mk.injEq .. ▸ (Option.some.injEq .. ▸ hfp)
            refine ⟨v, ?_, hs2, hc.2, ?_⟩
            · rwa [← hd]
            · have hlt : ¬ μ < v := by
                have hvne := hne v hc.2
                intro h; exact hvne (by linarith [hc.1, h])
              rw [← hdir, if_neg hlt]
          · rw [if_neg hc] at hfp; exact absurd hfp (by simp)
    · rintro ⟨v, hv, -, hineq, hdir⟩
      by_cases hlt : μ < v
      · apply List.mem_append.2; left
        apply List.mem_filterMap.2
        refine ⟨(d, some v), hv, ?_⟩
        simp only
        rw [if_pos ⟨by linarith, hineq⟩]
        rw [if_pos hlt] at hdir
        rw [hdir]
      · apply List.mem_append.2; right
        apply List.mem_filterMap.2
        refine ⟨(d, some v), hv, ?_⟩
        simp only
        rw [if_pos ⟨by linarith [not_lt.1 hlt], hineq⟩]
        rw [if_neg hlt] at hdir
        rw [hdir]

/-- Witness for C1 at a concrete input: the constant series
`[5, 5, 5]` has `σ = 0` and produces no anomalies. -/
theorem C1_zscore_anomaly_characterization_witness :
    sample_var (pct_vals [((1:ℤ), some (5:ℚ)), (2, some 5), (3, some 5)]) = 0 ∧
    detect_col [((1:ℤ), some (5:ℚ)), (2, some 5), (3, some 5)] = [] := by
  have h : sample_var
      (pct_vals [((1:ℤ), some (5:ℚ)), (2, some 5), (3, some 5)]) = 0 := by
    norm_num [sample_var, mean, pct_vals, List.filterMap]
  exact ⟨h, C1_zscore_anomaly_characterization.2 _ h⟩

/-! ### Raw text and dates

Python string surgery (`.strip()`, `.split(",")`, `str.isdigit`) is
modelled on `List Char`, which the kernel can evaluate.  Dates are
Gregorian day numbers (days since 0000-03-01, Hinnant's
days-from-civil algorithm); `pd.to_datetime(..., errors="coerce")`
yields `none` for strings that do not parse or fall outside the pandas
`Timestamp` range. -/

/-- Raw text: a Python string. -/
abbrev Str := List Char

/-- `str.strip()`. -/
def strip (l : Str) : Str :=
  ((l.dropWhile Char.isWhitespace).reverse.dropWhile Char.isWhitespace).reverse

/-- `str.split(sep)` for a one-character separator.  `split_char c []`
is `[[]]`, matching Python's `"".split(",") == [""]`. -/
def split_char (sep : Char) : Str → List Str
  | [] => [[]]
  | c :: cs =>
      let r := split_char sep cs
      if c == sep then [] :: r
      else
        match r with
        | [] => [[c]]
        | h :: t => (c :: h) :: t

/-- `str.isdigit()`: nonempty and all digits. -/
def py_isdigit (l : Str) : Bool := !l.isEmpty && l.all Char.isDigit

/-- Decimal digits to a number. -/
def digits_to_nat (l : Str) : ℕ := l.foldl (fun a c => a * 10 + (c.toNat - 48)) 0

def is_leap (y : ℕ) : Bool := (y % 4 == 0 && y % 100 != 0) || (y % 400 == 0)

def days_in_month (y m : ℕ) : ℕ :=
  if m = 2 then (if is_leap y then 29 else 28)
  else if m = 4 ∨ m = 6 ∨ m = 9 ∨ m = 11 then 30 else 31

def valid_ymd (y m d : ℕ) : Bool :=
  1 ≤ y && 1 ≤ m && m ≤ 12 && 1 ≤ d && d ≤ days_in_month y m

/-- Day number of a Gregorian date (days since 0000-03-01), for
years ≥ 1. -/
def civil_day (y m d : ℕ) : ℕ :=
  let y' := if m ≤ 2 then y - 1 else y
  let era := y' / 400
  let yoe := y' % 400
  let mp := (m + 9) % 12
  let doy := (153 * mp + 2) / 5 + (d - 1)
  let doe := yoe * 365 + yoe / 4 - yoe / 100 + doy
  era * 146097 + doe

/-- First representable `pandas.Timestamp` day (1677-09-22). -/
def ts_min : ℕ := civil_day 1677 9 22

/-- Last representable `pandas.Timestamp` day (2262-04-11). -/
def ts_max : ℕ := civil_day 2262 4 11

/-- `pd.to_datetime(s, format="%Y%m%d", errors="coerce")`: accepts
exactly 8 digits forming a valid calendar date inside the `Timestamp`
range, otherwise `NaT` (`none`). -/
def parse_yyyymmdd (s : Str) : Option ℤ :=
  if s.length == 8 && s.all Char.isDigit then
    let y := digits_to_nat (s.take 4)
    let m := digits_to_nat ((s.drop 4).take 2)
    let d := digits_to_nat (s.drop 6)
    if valid_ymd y m d && ts_min ≤ civil_day y m d && civil_day y m d ≤ ts_max
    then some (civil_day y m d) else none
  else none

/-- ISO form `YYYY-MM-DD` accepted by `pd.to_datetime` without a
format string. -/
def parse_iso (s : Str) : Option ℤ :=
  match split_char '-' s with
  | [ys, ms, ds] =>
      if ys.length == 4 && ms.length == 2 && ds.length == 2 &&
         (ys ++ ms ++ ds).all Char.isDigit then
        let y := digits_to_nat ys
        let m := digits_to_nat ms
        let d := digits_to_nat ds
        if valid_ymd y m d && ts_min ≤ civil_day y m d && civil_day y m d ≤ ts_max
        then some (civil_day y m d) else none
      else none
  | _ => none

/-- `pd.to_datetime(s, errors="coerce")` with no format: the flexible
parser, modelled on the two date shapes this repository stores (ISO
strings and 8-digit `YYYYMMDD` strings, both of which pandas parses). -/
def parse_general (s : Str) : Option ℤ :=
  match parse_iso s with
  | some d => some d
  | none => parse_yyyymmdd s

/-! ### Event loading and country extraction

`load_events_data` (`analyze_event_spikes_and_dips.py`): per parquet
file, skip the file when it has no `DATE` column; keep only rows whose
`DATE` is all digits (`str.isdigit`); parse with `format="%Y%m%d"`,
coerce and drop failures; extract `COUNTRY` as
`x.split(",")[-1].strip()` when the geo value is present, `None`
otherwise.  Rows with a `None` or empty country are NOT dropped.

`extract_country_from_geo` (`events_to_currency_ols.py`): `None` for
missing or (after `strip`) empty values, else the substring after the
last comma, stripped. -/

structure RawEvent where
  date : Str
  geo : Option Str
  counttype : Str
deriving DecidableEq, Repr

structure Event where
  date : ℤ
  country : Option Str
  counttype : Str
deriving DecidableEq, Repr

/-- The `COUNTRY` lambda of `load_events_data`:
`x.split(",")[-1].strip() if pd.notna(x) else None`. -/
def analyze_extract (x : Option Str) : Option Str :=
  match x with
  | none => none
  | some s => some (strip ((split_char ',' s).getLastD []))

/-- One parquet file's rows through `load_events_data`'s filters. -/
def load_events_file (rows : List RawEvent) : List Event :=
  (rows.filter (fun r => py_isdigit r.date)).filterMap
    (fun r => (parse_yyyymmdd r.date).map
      (fun d => ⟨d, analyze_extract r.geo, r.counttype⟩))

/-- `load_events_data` over files; a file without a `DATE` column
(`none`) is skipped and the batch continues. -/
def load_events_data (files : List (Option (List RawEvent))) : List Event :=
  files.flatMap (fun f =>
    match f with
    | none => []
    | some rows => load_events_file rows)

/-- `extract_country_from_geo` of `events_to_currency_ols.py`. -/
def extract_country_from_geo (x : Option Str) : Option Str :=
  match x with
  | none => none
  | some raw =>
      let s := strip raw
      if s = [] then none
      else if s.contains ',' then some (strip ((split_char ',' s).getLastD []))
      else some s

/-- The `(Date, Country)` rows surviving `build_event_features`'s
date coercion, country extraction and `dropna(subset=['Date',
'Country'])`, including the final `str.strip()` normalization. -/
def build_event_rows (rows : List (Str × Option Str)) : List (ℤ × Str) :=
  rows.filterMap (fun r =>
    match parse_general r.1, extract_country_from_geo r.2 with
    | some d, some c => some (d, strip c)
    | _, _ => none)

/-- The `Date` handling of `run_ols_regression.py` lines 49-50:
`pd.to_datetime(events_df["Date"], errors="coerce")` followed by
`dropna`: the surviving parsed dates. -/
def ols_event_dates (dates : List Str) : List ℤ := dates.filterMap parse_general

lemma load_events_file_mem (rows : List RawEvent) (e : Event) :
    e ∈ load_events_file rows ↔
      ∃ r ∈ rows, py_isdigit r.date = true ∧
        parse_yyyymmdd r.date = some e.date ∧
        analyze_extract r.geo = e.country ∧ r.counttype = e.counttype := by
  unfold load_events_file
  rw [List.mem_filterMap]
  constructor
  · rintro ⟨r, hr, hf⟩
    obtain ⟨hrr, hpr⟩ := List.mem_filter.1 hr
    obtain ⟨d, hd, he⟩ := Option.map_eq_some'.1 hf
    subst he
    exact ⟨r, hrr, hpr, hd, rfl, rfl⟩
  · rintro ⟨r, hr, hp, hd, hc, ht⟩
    refine ⟨r, List.mem_filter.2 ⟨hr, hp⟩, ?_⟩
    rw [hd]
    cases e
    simp at hd hc ht ⊢
    exact ⟨hc, ht⟩

/-- C6 counterexample: in `load_events_data`
(`analyze_event_spikes_and_dips.py`), a row whose geography value is
the empty string is NOT dropped: it survives with country `""` (the
empty string), not with a null country, contradicting the claim's
"empty string maps to null with the row dropped". -/
theorem C6_counterexample :
    (load_events_file
        [⟨"20210105".toList, some "".toList, "X".toList⟩]).map (·.country) =
      [some []] := by decide

/-- C6 (amended): the country-extraction rule (substring after the
last comma, trimmed; otherwise the whole trimmed value) holds in both
extractors, and in the OLS feature builder an empty or missing
geography yields a null country and the row is dropped; but in the
spike-analysis loader a missing geography yields a null country and an
empty one yields the empty string, and such rows are kept. -/
theorem C6_country_extraction :
    (extract_country_from_geo none = none) ∧
    (∀ s : Str, strip s = [] → extract_country_from_geo (some s) = none) ∧
    (∀ s : Str, (strip s).contains ',' = true →
        extract_country_from_geo (some s) =
          some (strip ((split_char ',' (strip s)).getLastD []))) ∧
    (∀ s : Str, strip s ≠ [] → (strip s).contains ',' = false →
        extract_country_from_geo (some s) = some (strip s)) ∧
    (extract_country_from_geo (some "Alaska, United States".toList) =
        some "United States".toList ∧
      extract_country_from_geo (some "France".toList) = some "France".toList ∧
      extract_country_from_geo (some "".toList) = none) ∧
    (∀ (rows : List (Str × Option Str)) (d : ℤ) (c : Str),
        (d, c) ∈ build_event_rows rows ↔
          ∃ r ∈ rows, parse_general r.1 = some d ∧
            ∃ c0, extract_country_from_geo r.2 = some c0 ∧ c = strip c0) ∧
    (analyze_extract none = none ∧ analyze_extract (some []) = some [] ∧
      (load_events_file [⟨"20210105".toList, none, "X".toList⟩]).length = 1) := by
  refine ⟨rfl, ?_, ?_, ?_, by decide, ?_, by decide⟩
  · intro s hs
    unfold extract_country_from_geo
    simp only [hs]
    rfl
  · intro s hs
    have hne : strip s ≠ [] := by
      intro h; rw [h] at hs; exact absurd hs (by decide)
    unfold extract_country_from_geo
    simp only [if_neg hne, hs, if_pos]
  · intro s hne hnc
    unfold extract_country_from_geo
    simp only [if_neg hne, hnc]
    rfl
  · intro rows d c
    unfold build_event_rows
    rw [List.mem_filterMap]
    constructor
    · rintro ⟨r, hr, hf⟩
      cases hp : parse_general r.1 with
      | none => rw [hp] at hf; exact absurd hf (by simp)
      | some d0 =>
        cases hx : extract_country_from_geo r.2 with
        | none => rw [hp, hx] at hf; exact absurd hf (by simp)
        | some c0 =>
          rw [hp, hx] at hf
          simp only [Option.some.injEq, Prod.mk.injEq] at hf
          exact ⟨r, hr, by rw [hp, hf.1], c0, hx, hf.2.symm⟩
    · rintro ⟨r, hr, hp, c0, hx, hc⟩
      refine ⟨r, hr, ?_⟩
      rw [hp, hx, hc]

/-- Witness for C6 at a concrete input: `"France"` has no comma and a
nonempty strip, so extraction returns the trimmed whole value. -/
theorem C6_country_extraction_witness :
    strip "France".toList ≠ [] ∧
      ("France".toList.contains ',') = false ∧
      extract_country_from_geo (some "France".toList) =
        some (strip "France".toList) := by
  refine ⟨by decide, by decide, ?_⟩
  have h := C6_country_extraction.2.2.2.1 "France".toList (by decide) (by decide)
  exact h

/-- C7 counterexample: `load_events_data`'s row filter
(`str(x).isdigit()`) drops a row whose `DATE` is a valid ISO string
(`"2021-01-05"`), although that form parses; so the normalizer does
not accept "either an 8-digit `YYYYMMDD` integer form or an ISO
string". -/
theorem C7_counterexample :
    load_events_file
        [⟨"2021-01-05".toList, some "France".toList, "PROTEST".toList⟩] = [] ∧
      parse_iso "2021-01-05".toList ≠ none := by decide

/-- C7 (amended): the spike-analysis loader keeps exactly the rows
whose `DATE` is a nonempty all-digit string parsing as a valid
`YYYYMMDD` date (so ISO rows are dropped there); the OLS loader's
coercing parser keeps exactly the generally-parseable rows (both
shapes); a file without a `DATE` column is skipped with the batch
continuing.  In both loaders failing rows are dropped silently — no
dropped-row count is computed or surfaced. -/
theorem C7_date_parsing :
    (∀ (rows : List RawEvent) (e : Event),
        e ∈ load_events_file rows ↔
          ∃ r ∈ rows, py_isdigit r.date = true ∧
            parse_yyyymmdd r.date = some e.date ∧
            analyze_extract r.geo = e.country ∧ r.counttype = e.counttype) ∧
    (∀ files, load_events_data (none :: files) = load_events_data files) ∧
    (∀ (dates : List Str) (d : ℤ),
        d ∈ ols_event_dates dates ↔ ∃ s ∈ dates, parse_general s = some d) ∧
    (parse_general "2021-01-05".toList = parse_general "20210105".toList ∧
      (parse_general "20210105".toList).isSome = true) := by
  refine ⟨load_events_file_mem, ?_, ?_, by decide⟩
  · intro files
    simp [load_events_data]
  · intro dates d
    unfold ols_event_dates
    rw [List.mem_filterMap]

/-- Witness for C7 at a concrete input: an all-digit `YYYYMMDD` row is
kept by the spike-analysis loader. -/
theorem C7_date_parsing_witness :
    ∃ e ∈ load_events_file [⟨"20210105".toList, some "France".toList,
        "PROTEST".toList⟩],
      e.counttype = "PROTEST".toList := by
  have h := (C7_date_parsing.1
      [⟨"20210105".toList, some "France".toList, "PROTEST".toList⟩]
      ⟨(parse_yyyymmdd "20210105".toList).getD 0, some "France".toList,
        "PROTEST".toList⟩).2
      ⟨⟨"20210105".toList, some "France".toList, "PROTEST".toList⟩,
        by decide, by decide, by decide, by decide, by decide⟩
  exact ⟨_, h, by decide⟩

/-! ### Event attribution (`get_top_events`)

`get_top_events(events_df, date, country, top_n=3)` filters the event
table to `DATE == date - 1 day` and `COUNTRY == country`, then takes
`value_counts().head(top_n)`.  `Series.value_counts` tallies values in
order of first appearance (pandas' hash table preserves insertion
order) and sorts counts descending, ties keeping that first-appearance
order (numpy's introsort degenerates to the stable insertion sort on
small/tied runs); it gives NO ordering by category code.  We model it
as first-appearance tallying followed by a stable descending insertion
sort. -/

/-- Distinct elements of `l` not in `seen`, in order of first
appearance. -/
def fa_aux {α} [DecidableEq α] (seen : List α) : List α → List α
  | [] => []
  | x :: xs => if x ∈ seen then fa_aux seen xs else x :: fa_aux (x :: seen) xs

/-- Distinct elements in order of first appearance. -/
def first_appearances {α} [DecidableEq α] (l : List α) : List α := fa_aux [] l

/-- `Series.value_counts()` before sorting: (value, count) in order of
first appearance. -/
def value_counts (l : List Str) : List (Str × ℕ) :=
  (first_appearances l).map (fun x => (x, l.count x))

/-- Stable insert for the descending-by-count sort. -/
def insert_desc (x : Str × ℕ) : List (Str × ℕ) → List (Str × ℕ)
  | [] => [x]
  | y :: ys => if y.2 ≤ x.2 then x :: y :: ys else y :: insert_desc x ys

/-- Stable sort, count descending (ties keep list order). -/
def sort_count_desc (l : List (Str × ℕ)) : List (Str × ℕ) :=
  l.foldr insert_desc []

/-- The static `currency_country_map` dict of
`analyze_event_spikes_and_dips.main` (one country per currency). -/
def currency_country_pairs : List (String × Str) :=
  [("EUR", "France".toList), ("GBP", "United Kingdom".toList),
   ("JPY", "Japan".toList), ("CAD", "Canada".toList),
   ("AUD", "Australia".toList), ("CHF", "Switzerland".toList),
   ("CNY", "China".toList), ("INR", "India".toList),
   ("NZD", "New Zealand".toList), ("SEK", "Sweden".toList),
   ("NOK", "Norway".toList), ("DKK", "Denmark".toList),
   ("ZAR", "South Africa".toList), ("BRL", "Brazil".toList),
   ("MXN", "Mexico".toList), ("SGD", "Singapore".toList),
   ("HKD", "Hong Kong".toList), ("KRW", "South Korea".toList),
   ("TRY", "Turkey".toList), ("THB", "Thailand".toList),
   ("TWD", "Taiwan".toList), ("RUB", "Russia".toList)]

/-- `currency_country_map.get(cur, None)`. -/
def currency_country_map (cur : String) : Option Str :=
  (currency_country_pairs.find? (fun p => p.1 == cur)).map (·.2)

/-- `get_top_events`: events of the previous day in the given country,
tallied by `COUNTTYPE`, top `top_n` by count. -/
def get_top_events (events : List Event) (date : ℤ) (country : Str)
    (top_n : ℕ) : List (Str × ℕ) :=
  let prev := date - 1
  let filtered := events.filter
    (fun e => e.date == prev && e.country == some country)
  (sort_count_desc (value_counts (filtered.map (·.counttype)))).take top_n

/-- Lexicographic order on raw text by code point (category code
ascending). -/
def str_lt : Str → Str → Bool
  | [], [] => false
  | [], _ :: _ => true
  | _ :: _, [] => false
  | a :: as, b :: bs => if a < b then true else if b < a then false else str_lt as bs

/-- Comparison definition following the SPEC's words (§4.4): keep the
top-N categories by summed weight descending, breaking ties by
category code ascending.  Used only to compare with the source's
`get_top_events`. -/
def spec_insert (x : Str × ℕ) : List (Str × ℕ) → List (Str × ℕ)
  | [] => [x]
  | y :: ys =>
      if y.2 < x.2 || (y.2 == x.2 && str_lt x.1 y.1) then x :: y :: ys
      else y :: spec_insert x ys

/-- Spec-side selection: sort by (count descending, category code
ascending), then take `top_n`. -/
def spec_top_events (events : List Event) (date : ℤ) (country : Str)
    (top_n : ℕ) : List (Str × ℕ) :=
  let prev := date - 1
  let filtered := events.filter
    (fun e => e.date == prev && e.country == some country)
  ((value_counts (filtered.map (·.counttype))).foldr spec_insert []).take top_n

/-! #### Lemmas for C3 -/

lemma fa_aux_mem {α} [DecidableEq α] (l : List α) :
    ∀ (seen : List α) (x : α), x ∈ fa_aux seen l ↔ x ∈ l ∧ x ∉ seen := by
  induction l with
  | nil => intro seen x; simp [fa_aux]
  | cons y ys ih =>
      intro seen x
      unfold fa_aux
      by_cases hy : y ∈ seen
      · rw [if_pos hy, ih]
        constructor
        · rintro ⟨h1, h2⟩; exact ⟨List.mem_cons_of_mem _ h1, h2⟩
        · rintro ⟨h1, h2⟩
          rcases List.mem_cons.1 h1 with rfl | h1
          · exact absurd hy h2
          · exact ⟨h1, h2⟩
      · rw [if_neg hy]
        constructor
        · intro h
          rcases List.mem_cons.1 h with rfl | h
          · exact ⟨List.mem_cons_self .., hy⟩
          · obtain ⟨h1, h2⟩ := (ih _ _).1 h
            refine ⟨List.mem_cons_of_mem _ h1, fun hx => h2 ?_⟩
            exact List.mem_cons_of_mem _ hx
        · rintro ⟨h1, h2⟩
          rcases List.mem_cons.1 h1 with rfl | h1
          · exact List.mem_cons_self ..
          · by_cases hxy : x = y
            · subst hxy; exact List.mem_cons_self ..
            · exact List.mem_cons_of_mem _ ((ih _ _).2
                ⟨h1, fun hx => h2 (by
                  rcases List.mem_cons.1 hx with h | h
                  · exact absurd h hxy
                  · exact h)⟩)

lemma value_counts_mem {l : List Str} {c : Str} {k : ℕ}
    (h : (c, k) ∈ value_counts l) : c ∈ l ∧ k = l.count c := by
  obtain ⟨x, hx, hxe⟩ := List.mem_map.1 h
  have h1 : x = c := congrArg Prod.fst hxe
  have h2 : l.count x = k := congrArg Prod.snd hxe
  constructor
  · rw [← h1]; exact ((fa_aux_mem l [] x).1 hx).1
  · rw [← h2, h1]

lemma insert_desc_mem (x a : Str × ℕ) (l : List (Str × ℕ)) :
    a ∈ insert_desc x l ↔ a = x ∨ a ∈ l := by
  induction l with
  | nil => simp [insert_desc]
  | cons y ys ih =>
      unfold insert_desc
      by_cases hc : y.2 ≤ x.2
      · rw [if_pos hc]; simp
      · rw [if_neg hc]
        simp only [List.mem_cons, ih]
        tauto

lemma sort_count_desc_mem (l : List (Str × ℕ)) (a : Str × ℕ) :
    a ∈ sort_count_desc l ↔ a ∈ l := by
  unfold sort_count_desc
  induction l with
  | nil => simp
  | cons y ys ih =>
      simp only [List.foldr_cons, insert_desc_mem, ih, List.mem_cons]

lemma insert_desc_pairwise (x : Str × ℕ) (l : List (Str × ℕ))
    (h : l.Pairwise (fun a b => b.2 ≤ a.2)) :
    (insert_desc x l).Pairwise (fun a b => b.2 ≤ a.2) := by
  induction l with
  | nil => simp [insert_desc]
  | cons y ys ih =>
      unfold insert_desc
      rw [List.pairwise_cons] at h
      by_cases hc : y.2 ≤ x.2
      · rw [if_pos hc]
        refine List.pairwise_cons.2 ⟨?_, List.pairwise_cons.2 h⟩
        intro b hb
        rcases List.mem_cons.1 hb with rfl | hb
        · exact hc
        · exact le_trans (h.1 b hb) hc
      · rw [if_neg hc]
        refine List.pairwise_cons.2 ⟨?_, ih h.2⟩
        intro b hb
        rcases (insert_desc_mem x b ys).1 hb with rfl | hb
        · exact le_of_not_le hc
        · exact h.1 b hb

lemma sort_count_desc_pairwise (l : List (Str × ℕ)) :
    (sort_count_desc l).Pairwise (fun a b => b.2 ≤ a.2) := by
  unfold sort_count_desc
  induction l with
  | nil => simp
  | cons y ys ih => exact insert_desc_pairwise y _ ih

/-- The filter stage of `get_top_events`:
`events_df[(events_df["DATE"] == prev_day) & (events_df["COUNTRY"] ==
country)]`. -/
def attrib_filtered (events : List Event) (d : ℤ) (c : Str) : List Event :=
  events.filter (fun e => e.date == d - 1 && e.country == some c)

/-- The tally stage: `df_filtered["COUNTTYPE"].value_counts()` before
sorting — (category, count) in first-appearance order. -/
def attrib_tallies (events : List Event) (d : ℤ) (c : Str) : List (Str × ℕ) :=
  value_counts ((attrib_filtered events d c).map (·.counttype))

/-- The sort stage: the tallies in count-descending order, ties kept
in tally (first-appearance) order. -/
def attrib_sorted (events : List Event) (d : ℤ) (c : Str) : List (Str × ℕ) :=
  sort_count_desc (attrib_tallies events d c)

lemma value_counts_mem_iff (l : List Str) (cat : Str) (k : ℕ) :
    (cat, k) ∈ value_counts l ↔ cat ∈ l ∧ k = l.count cat := by
  constructor
  · exact value_counts_mem
  · rintro ⟨hc, rfl⟩
    unfold value_counts
    exact List.mem_map.2 ⟨cat, (fa_aux_mem l [] cat).2 ⟨hc, by simp⟩, rfl⟩

lemma value_counts_keys (l : List Str) :
    (value_counts l).map (·.1) = first_appearances l := by
  unfold value_counts
  rw [List.map_map]
  exact List.map_id _

lemma insert_desc_perm (x : Str × ℕ) (l : List (Str × ℕ)) :
    (insert_desc x l).Perm (x :: l) := by
  induction l with
  | nil => exact List.Perm.refl _
  | cons y ys ih =>
      unfold insert_desc
      by_cases hc : y.2 ≤ x.2
      · rw [if_pos hc]
      · rw [if_neg hc]
        exact (ih.cons y).trans (List.Perm.swap x y ys)

lemma sort_count_desc_perm (l : List (Str × ℕ)) :
    (sort_count_desc l).Perm l := by
  induction l with
  | nil => exact List.Perm.refl _
  | cons x xs ih =>
      simp only [sort_count_desc, List.foldr_cons] at ih ⊢
      exact (insert_desc_perm x _).trans (ih.cons x)

lemma insert_desc_filter (x : Str × ℕ) (l : List (Str × ℕ)) (k : ℕ) :
    (insert_desc x l).filter (fun p => p.2 == k) =
      if x.2 = k then x :: l.filter (fun p => p.2 == k)
      else l.filter (fun p => p.2 == k) := by
  induction l with
  | nil =>
      by_cases hx : x.2 = k
      · rw [if_pos hx]; simp [insert_desc, List.filter_cons, hx]
      · rw [if_neg hx]; simp [insert_desc, List.filter_cons, hx]
  | cons y ys ih =>
      unfold insert_desc
      by_cases hc : y.2 ≤ x.2
      · rw [if_pos hc]
        by_cases hx : x.2 = k
        · rw [if_pos hx]; simp [List.filter_cons, hx]
        · rw [if_neg hx]; simp [List.filter_cons, hx]
      · rw [if_neg hc]
        have hyx : x.2 < y.2 := lt_of_not_le hc
        by_cases hx : x.2 = k
        · rw [if_pos hx]
          have hy : ¬ y.2 = k := by omega
          rw [List.filter_cons, List.filter_cons]
          simp only [hy, ih, if_pos hx]
          simp [hy]
        · rw [if_neg hx]
          rw [List.filter_cons, List.filter_cons]
          simp only [ih, if_neg hx]

/-- Stability of the count-descending sort: at each count value the
sorted list keeps exactly the tally (first-appearance) order. -/
lemma sort_count_desc_filter (l : List (Str × ℕ)) (k : ℕ) :
    (sort_count_desc l).filter (fun p => p.2 == k) =
      l.filter (fun p => p.2 == k) := by
  induction l with
  | nil => rfl
  | cons x xs ih =>
      simp only [sort_count_desc, List.foldr_cons] at ih ⊢
      rw [insert_desc_filter]
      by_cases hx : x.2 = k
      · rw [if_pos hx, ih, List.filter_cons]
        simp [hx]
      · rw [if_neg hx, ih, List.filter_cons]
        simp [hx]

/-- Events used to exhibit C3's tie-breaking: four categories, one
event each, first appearing in the order D, C, B, A. -/
def c3_events : List Event :=
  [⟨1, some "France".toList, "D".toList⟩,
   ⟨1, some "France".toList, "C".toList⟩,
   ⟨1, some "France".toList, "B".toList⟩,
   ⟨1, some "France".toList, "A".toList⟩]

/-- C3 counterexample: with four tied categories first appearing as
D, C, B, A on the lag date, `get_top_events` (via `value_counts`)
returns D, C, B — not the code-ascending A, B, C that the claim's
tie-breaking rule demands. -/
theorem C3_counterexample :
    get_top_events c3_events 2 "France".toList 3 =
        [("D".toList, 1), ("C".toList, 1), ("B".toList, 1)] ∧
      spec_top_events c3_events 2 "France".toList 3 =
        [("A".toList, 1), ("B".toList, 1), ("C".toList, 1)] ∧
      get_top_events c3_events 2 "France".toList 3 ≠
        spec_top_events c3_events 2 "France".toList 3 := by decide

/-- C3 (amended): for every anomaly at date `d` and country `c`, the
attributor selects exactly the events dated `d - 1` in country `c`
(`attrib_filtered`), tallies them by category with each record
weighing 1 (`attrib_tallies`: the categories in first-appearance
order, each with its exact number of matching records — a full
membership iff), and emits the first `top_n` rows of `attrib_sorted`,
which is THE stable count-descending rearrangement of the tallies: a
permutation of all of them, sorted by count descending, whose
restriction to every count value equals the tallies' restriction
(ties kept in first-appearance order, NOT broken by category code
ascending — permutation + sortedness + per-count stability determine
it uniquely, so this is the top-N selection in full); every emitted
count is positive, at most `top_n` rows come back, and an anomaly with
no matching events yields zero rows and no error. -/
theorem C3_attrib_top_categories :
    ∀ (events : List Event) (d : ℤ) (c : Str) (n : ℕ),
      (get_top_events events d c n = (attrib_sorted events d c).take n) ∧
      ((attrib_sorted events d c).Perm (attrib_tallies events d c)) ∧
      ((attrib_sorted events d c).Pairwise (fun a b => b.2 ≤ a.2)) ∧
      (∀ k : ℕ, (attrib_sorted events d c).filter (fun p => p.2 == k) =
          (attrib_tallies events d c).filter (fun p => p.2 == k)) ∧
      ((attrib_tallies events d c).map (·.1) =
          first_appearances ((attrib_filtered events d c).map (·.counttype))) ∧
      (∀ cat k, (cat, k) ∈ attrib_tallies events d c ↔
          cat ∈ (attrib_filtered events d c).map (·.counttype) ∧
            k = ((attrib_filtered events d c).map (·.counttype)).count cat) ∧
      (∀ cat k, (cat, k) ∈ get_top_events events d c n →
          0 < k ∧
          k = ((attrib_filtered events d c).map (·.counttype)).count cat) ∧
      ((get_top_events events d c n).length ≤ n) ∧
      (attrib_filtered events d c = [] → get_top_events events d c n = []) := by
  intro events d c n
  refine ⟨rfl, sort_count_desc_perm _, sort_count_desc_pairwise _,
    fun k => sort_count_desc_filter _ k, value_counts_keys _,
    fun cat k => value_counts_mem_iff _ cat k, ?_, ?_, ?_⟩
  · intro cat k hmem
    unfold get_top_events at hmem
    have hmem2 := (sort_count_desc_mem _ _).1 (List.mem_of_mem_take hmem)
    obtain ⟨hin, hcount⟩ := value_counts_mem hmem2
    exact ⟨hcount ▸ List.count_pos_iff.2 hin, hcount⟩
  · unfold get_top_events
    exact List.length_take_le _ _
  · intro hfil
    simp only [get_top_events, attrib_filtered] at hfil ⊢
    rw [hfil]
    simp [sort_count_desc, value_counts, first_appearances, fa_aux]

/-- Witness for C3 at a concrete input: `c3_events` — the emitted top
category `D` carries a positive count equal to its number of matching
records, via the theorem's soundness conjunct. -/
theorem C3_attrib_top_categories_witness :
    0 < 1 ∧
      1 = ((attrib_filtered c3_events 2 "France".toList).map
        (·.counttype)).count "D".toList :=
  (C3_attrib_top_categories c3_events 2 "France".toList 3).2.2.2.2.2.2.1
    "D".toList 1 (by decide)

/-! ### The `main` pipeline of `analyze_event_spikes_and_dips.py`

`detect_spikes_and_dips` returns rows with columns `DATE`, `CURRENCY`,
`TYPE`, but `main`'s loop reads `row["Date"]`, `row["Currency"]`,
`row["Type"]` — a pandas `Series` lookup with a missing label raises
`KeyError`.  Rows are modelled as association lists and the lookup as
`row_lookup`, so the loop is embedded faithfully including the failing
key access.  When the detector finds nothing, `main` reaches
`df_analysis.groupby(["SpikeDip", "Event"])` on an empty, column-less
frame, which also raises `KeyError`. -/

/-- A pandas cell value in an anomaly row. -/
inductive RVal where
  | int (z : ℤ)
  | str (s : String)
  | dir (t : Direction)
deriving DecidableEq, Repr

/-- One row of `main`'s final `analysis_results`. -/
structure AnalysisRow where
  date : ℤ
  currency : String
  spikedip : Direction
  event : Str
  cnt : ℕ
deriving DecidableEq, Repr

/-- A detector result as the `DataFrame` row `main` iterates over:
keys `DATE`, `CURRENCY`, `TYPE`. -/
def anomaly_row (a : ℤ × String × Direction) : List (String × RVal) :=
  [("DATE", .int a.1), ("CURRENCY", .str a.2.1), ("TYPE", .dir a.2.2)]

/-- `row[k]` on a pandas `Series`: `KeyError` when the label is
missing. -/
def row_lookup (row : List (String × RVal)) (k : String) : Except String RVal :=
  match row.find? (fun p => p.1 == k) with
  | some p => .ok p.2
  | none => .error ("KeyError: " ++ k)

/-- The body of `main`'s loop over detected anomalies: reads
`row["Date"]`, `row["Currency"]`, maps the currency to a country
(`continue` when unmapped), reads `row["Type"]`, and appends one
result per top event. -/
def process_row (events : List Event) (row : List (String × RVal)) :
    Except String (List AnalysisRow) := do
  let dv ← row_lookup row "Date"
  let cv ← row_lookup row "Currency"
  match dv, cv with
  | .int date, .str cur =>
      match currency_country_map cur with
      | none => pure []
      | some ctry => do
          let tv ← row_lookup row "Type"
          match tv with
          | .dir t => pure ((get_top_events events date ctry 3).map
              (fun ek => ⟨date, cur, t, ek.1, ek.2⟩))
          | _ => .error "TypeError"
  | _, _ => .error "TypeError"

/-- `main` after loading: warn-and-return (`.ok none`) when either
table is empty; otherwise detect anomalies and run the loop; the
aggregate-stats `groupby` raises on the empty result frame. -/
def main_analysis (df_currency : List (String × Column)) (events : List Event) :
    Except String (Option (List AnalysisRow)) :=
  if df_currency.isEmpty || events.isEmpty then .ok none
  else
    match (detect_spikes_and_dips df_currency).mapM
        (fun a => process_row events (anomaly_row a)) with
    | .error e => .error e
    | .ok lists =>
        let res := lists.flatten
        if res.isEmpty then .error "KeyError: SpikeDip" else .ok (some res)

/-- `main`'s loop as it behaves with the detector's actual column
names (`DATE`/`CURRENCY`/`TYPE`) — i.e. the spec-intended pipeline
composition of detector, country map and `get_top_events`, used to
state what the claimed scenario produces once the key mismatch is
repaired. -/
def analysis_rows_intended (df_currency : List (String × Column))
    (events : List Event) : List AnalysisRow :=
  (detect_spikes_and_dips df_currency).flatMap (fun a =>
    match currency_country_map a.2.1 with
    | none => []
    | some ctry => (get_top_events events a.1 ctry 3).map
        (fun ek => ⟨a.1, a.2.1, a.2.2, ek.1, ek.2⟩))

/-- The aggregate-stats step of `main` (lines 153-155): occurrences per
`(SpikeDip, Event)` group and the percentage share within each
direction, rounded to 2 decimals. -/
def aggregate_stats (rows : List AnalysisRow) :
    List ((Direction × Str) × ℕ × ℚ) :=
  (first_appearances (rows.map (fun r => (r.spikedip, r.event)))).map (fun p =>
    let occ := (rows.filter (fun r => (r.spikedip, r.event) == p)).length
    let tot := (rows.filter (fun r => r.spikedip == p.1)).length
    (p, occ, round2 (100 * (occ : ℚ) / (tot : ℚ))))

/-! ### The C2 end-to-end scenario

Rate series: a single currency `"EUR"` holding `[1.0]*29 + [1.20]`
over days 1..30; one event (day 29, France, PROTEST). -/

/-- The 30-day EUR price column of the scenario. -/
def c2_prices : Column :=
  [(1, some 1), (2, some 1), (3, some 1), (4, some 1), (5, some 1),
   (6, some 1), (7, some 1), (8, some 1), (9, some 1), (10, some 1),
   (11, some 1), (12, some 1), (13, some 1), (14, some 1), (15, some 1),
   (16, some 1), (17, some 1), (18, some 1), (19, some 1), (20, some 1),
   (21, some 1), (22, some 1), (23, some 1), (24, some 1), (25, some 1),
   (26, some 1), (27, some 1), (28, some 1), (29, some 1),
   (30, some (6/5))]

def c2_currency : List (String × Column) := [("EUR", c2_prices)]

def c2_events : List Event := [⟨29, some "France".toList, "PROTEST".toList⟩]

lemma c2_pct_vals : pct_vals c2_prices =
    List.replicate 29 (1 : ℚ) ++ [6/5] := by rfl

lemma c2_mean : mean (pct_vals c2_prices) = 151/150 := by
  rw [c2_pct_vals]
  unfold mean
  simp [List.sum_replicate, smul_eq_mul]
  norm_num

lemma c2_var : sample_var (pct_vals c2_prices) = 1/750 := by
  unfold sample_var
  rw [c2_mean, c2_pct_vals]
  simp [List.map_replicate, List.sum_replicate, smul_eq_mul]
  norm_num

lemma c2_detect : detect_spikes_and_dips c2_currency =
    [(30, "EUR", Direction.SPIKE)] := by
  have hcol : detect_col c2_prices = [(30, Direction.SPIKE)] := by
    unfold detect_col
    rw [if_neg (by rw [c2_pct_vals]; simp)]
    rw [c2_var, if_neg (by norm_num)]
    rw [c2_mean]
    norm_num [c2_prices, List.filterMap_cons, zThreshold]
  unfold detect_spikes_and_dips
  simp [c2_currency, hcol]

/-- C2: evaluating `main` on the claimed scenario.  The detector does
flag day 30 as a SPIKE and, composed with the attribution loop under
the detector's actual column names, the pipeline would emit exactly
one attribution row `(day30, EUR, SPIKE, PROTEST, 1)` with a 100.0%
share for `(SPIKE, PROTEST)` — but `main` itself crashes with
`KeyError: 'Date'` because the detector produces columns
`DATE`/`CURRENCY`/`TYPE` while the loop reads `row["Date"]`,
`row["Currency"]`, `row["Type"]`.  The claim describes the intended
behaviour; the code's column names are a slip. -/
theorem C2_scenario_keyerror :
    main_analysis c2_currency c2_events = .error "KeyError: Date" ∧
    detect_spikes_and_dips c2_currency = [(30, "EUR", Direction.SPIKE)] ∧
    get_top_events c2_events 30 "France".toList 3 = [("PROTEST".toList, 1)] ∧
    analysis_rows_intended c2_currency c2_events =
      [⟨30, "EUR", Direction.SPIKE, "PROTEST".toList, 1⟩] ∧
    aggregate_stats (analysis_rows_intended c2_currency c2_events) =
      [((Direction.SPIKE, "PROTEST".toList), 1, 100)] := by
  have hint : analysis_rows_intended c2_currency c2_events =
      [⟨30, "EUR", Direction.SPIKE, "PROTEST".toList, 1⟩] := by
    unfold analysis_rows_intended
    rw [c2_detect]
    rfl
  refine ⟨?_, c2_detect, by decide, hint, ?_⟩
  · unfold main_analysis
    rw [c2_detect]
    rfl
  · rw [hint]
    unfold aggregate_stats
    simp [first_appearances, fa_aux, round2, round_half_even]
    norm_num

/-! ### Upstream guards (`run_ols_regression.py`, `events_to_currency_ols.py`)

`run_ols_regression.py` raises `FileNotFoundError` when no event
parquet file exists, `pd.concat` raises `ValueError` when every file
fails to read, and the script raises `ValueError` when the merged
events/FX frame is empty.  `load_all_events` of
`events_to_currency_ols.py` raises `RuntimeError` when no file exists.
`main` of `analyze_event_spikes_and_dips.py`, by contrast, prints a
warning and returns (exit code 0, no output) when either table is
empty — see `main_analysis`. -/

structure OlsEventRow where
  date : Str
  code : Str
deriving DecidableEq, Repr

/-- The loading-and-merge stage of `run_ols_regression.py`: `files`
holds each parquet read result (`none` = read failure, skipped);
`fx_dates` is the FX frame's date index; the result is the daily event
count table restricted to dates present in both (`merge(...,
how="inner")`). -/
def run_ols_parsed (files : List (Option (List OlsEventRow))) : List ℤ :=
  (files.filterMap id).flatten.filterMap (fun r => parse_general r.date)

/-- Daily event counts (`groupby(date).size()`). -/
def run_ols_daily (files : List (Option (List OlsEventRow))) : List (ℤ × ℕ) :=
  (first_appearances (run_ols_parsed files)).map
    (fun d => (d, (run_ols_parsed files).count d))

/-- The inner merge of daily counts with the FX index. -/
def run_ols_merged (files : List (Option (List OlsEventRow)))
    (fx_dates : List ℤ) : List (ℤ × ℕ) :=
  (run_ols_daily files).filter (fun p => fx_dates.contains p.1)

def run_ols_load (files : List (Option (List OlsEventRow)))
    (fx_dates : List ℤ) : Except String (List (ℤ × ℕ)) :=
  if files.isEmpty then .error "FileNotFoundError"
  else if (files.filterMap id).isEmpty then
    .error "ValueError: no objects to concatenate"
  else if (run_ols_merged files fx_dates).isEmpty then
    .error "ValueError: no overlap"
  else .ok (run_ols_merged files fx_dates)

/-- `load_all_events` of `events_to_currency_ols.py`. -/
def load_all_events_check {α} (files : List (List α)) :
    Except String (List α) :=
  if files.isEmpty then .error "RuntimeError" else .ok files.flatten

/-- C9 counterexample: with a nonempty currency table and an EMPTY
event table, `main` of `analyze_event_spikes_and_dips.py` returns
normally with no output (`.ok none`, a printed warning only) — it does
not abort with a surfaced fatal error as the claim requires. -/
theorem C9_counterexample :
    main_analysis [("EUR", [((1:ℤ), some (1:ℚ))])] [] = .ok none := by rfl

/-- C9 (amended): the OLS regression script does abort with raised
errors — no event files, no readable file, or an empty merged panel
all raise, and a successful result always carries a nonempty merge —
and `load_all_events` raises on an empty file list; but the spike/dip
analysis script instead warns and returns silently (no error, no
output) whenever the currency or the event table is empty. -/
theorem C9_missing_upstream :
    (∀ fx_dates : List ℤ, run_ols_load [] fx_dates = .error "FileNotFoundError") ∧
    (∀ files fx_dates m, run_ols_load files fx_dates = .ok m → m ≠ []) ∧
    (load_all_events_check ([] : List (List OlsEventRow)) = .error "RuntimeError") ∧
    (∀ (df : List (String × Column)) (ev : List Event),
        (df.isEmpty || ev.isEmpty) = true → main_analysis df ev = .ok none) := by
  refine ⟨fun _ => rfl, ?_, rfl, ?_⟩
  · intro files fx_dates m h
    unfold run_ols_load at h
    split_ifs at h with h1 h2 h3
    have hEq : run_ols_merged files fx_dates = m := Except.ok.inj h
    intro hm
    exact h3 (by rw [hEq, hm]; rfl)
  · intro df ev h
    unfold main_analysis
    rw [if_pos h]

/-- Witness for C9 at a concrete input: both tables empty — `main`
returns `.ok none`. -/
theorem C9_missing_upstream_witness :
    ((([] : List (String × Column)).isEmpty ||
        ([] : List Event).isEmpty) = true) ∧
      main_analysis [] [] = .ok none :=
  ⟨by decide, C9_missing_upstream.2.2.2 [] [] (by decide)⟩

/-! ### The USD-strength panel (`make_visuals.py`,
`build_ols_event_treemap`)

The panel index is `event_counts.index.intersection(cur_pct.index)`;
the pct-change columns are reindexed to it and filled with
`fillna(method="ffill").fillna(0)`; the response is
`usd_strength = -cur_pct.mean(axis=1)`. -/

/-- `Index.intersection`: the dates present in both frames. -/
def common_dates (event_dates cur_dates : List ℤ) : List ℤ :=
  event_dates.filter (fun d => cur_dates.contains d)

/-- One pct-change column over the panel dates after
`fillna(method="ffill").fillna(0)`: a present value stays; a missing
one takes the most recent prior panel value, else 0. -/
def fill_col (c : ℤ → Option ℚ) : Option ℚ → List ℤ → List ℚ
  | _, [] => []
  | acc, d :: ds =>
      match c d with
      | some x => x :: fill_col c (some x) ds
      | none => acc.getD 0 :: fill_col c acc ds

/-- `usd_strength = -cur_pct.mean(axis=1)` over the filled columns,
positionally along the panel dates. -/
def usd_strength (cols : List (ℤ → Option ℚ)) (ds : List ℤ) : List ℚ :=
  (List.range ds.length).map (fun i =>
    -(((cols.map (fun c => (fill_col c none ds).getD i 0)).sum) /
      (cols.length : ℚ)))

lemma fill_col_getD (c : ℤ → Option ℚ) (ds : List ℤ) :
    ∀ (acc : Option ℚ) (i : ℕ), i < ds.length →
      ∀ v, c (ds.getD i 0) = some v → (fill_col c acc ds).getD i 0 = v := by
  induction ds with
  | nil => intro acc i hi; simp at hi
  | cons d ds ih =>
      intro acc i hi v hv
      cases i with
      | zero =>
          simp only [List.getD_cons_zero] at hv
          unfold fill_col
          rw [hv]
          simp
      | succ j =>
          simp only [List.getD_cons_succ] at hv
          have hj : j < ds.length := Nat.lt_of_succ_lt_succ hi
          unfold fill_col
          cases hcd : c d with
          | some x => simp only [List.getD_cons_succ]; exact ih _ j hj v hv
          | none => simp only [List.getD_cons_succ]; exact ih _ j hj v hv

/-- C4: the daily panel of `build_ols_event_treemap` has exactly the
dates present in both the event aggregation and the currency panel,
and at every panel position whose date has a present pct-change value
for every tracked currency, the response equals the negative of the
mean percentage change across the tracked currencies at that date. -/
theorem C4_usd_strength_panel :
    (∀ (event_dates cur_dates : List ℤ) (d : ℤ),
        d ∈ common_dates event_dates cur_dates ↔
          d ∈ event_dates ∧ d ∈ cur_dates) ∧
    (∀ (cols : List (ℤ → Option ℚ)) (ds : List ℤ) (i : ℕ),
        i < ds.length →
        (∀ c ∈ cols, (c (ds.getD i 0)).isSome = true) →
        (usd_strength cols ds).getD i 0 =
          -(((cols.map (fun c => (c (ds.getD i 0)).getD 0)).sum) /
            (cols.length : ℚ))) := by
  constructor
  · intro event_dates cur_dates d
    unfold common_dates
    rw [List.mem_filter]
    simp
  · intro cols ds i hi hall
    unfold usd_strength
    rw [List.getD_eq_getElem?_getD, List.getElem?_map,
      List.getElem?_range hi]
    simp only [Option.map_some', Option.getD_some]
    congr 1
    congr 1
    apply congrArg List.sum
    apply List.map_congr_left
    intro c hc
    obtain ⟨v, hv⟩ := Option.isSome_iff_exists.1 (hall c hc)
    rw [fill_col_getD c ds none i hi v hv, hv]
    rfl

/-- A concrete pct-change column for the C4 witness. -/
def c4_col : ℤ → Option ℚ := fun d => if d = 6 then some 2 else none

/-- Witness for C4 at a concrete input: a panel of one date (day 6)
and one currency whose pct change there is `2` has response `-2`. -/
theorem C4_usd_strength_panel_witness :
    (usd_strength [c4_col] [6]).getD 0 0 = -2 := by
  have hall : ∀ c ∈ [c4_col], (c (([(6:ℤ)] : List ℤ).getD 0 0)).isSome = true := by
    intro c hc
    rw [List.mem_singleton] at hc
    subst hc
    rfl
  have h := C4_usd_strength_panel.2 [c4_col] [6] 0 (by decide) hall
  rw [h]
  norm_num [c4_col]

/-! ### Ordinary least squares

`sm.add_constant(X)` (defaults `prepend=True, has_constant="skip"`)
prepends a column of ones UNLESS some existing column is constant and
everywhere nonzero (`np.ptp(x, axis=0) == 0` and `np.all(x != 0,
axis=0)`), in which case `X` is returned unchanged.  `sm.OLS(y,
X).fit()` solves least squares; we compute the coefficients by the
normal equations `(XᵀX)⁻¹ Xᵀy` via `det⁻¹ • adjugate`, which agrees
with statsmodels' pseudo-inverse solution whenever `XᵀX` is
invertible (the coefficient VECTOR always has one entry per design
column, as in statsmodels). -/

/-- Column `j` of a row-major matrix. -/
def col_vals (rows : List (List ℚ)) (j : ℕ) : List ℚ :=
  rows.map (fun r => r.getD j 0)

/-- statsmodels' has-constant test on one column: constant and
everywhere nonzero. -/
def is_nonzero_const (l : List ℚ) : Bool :=
  match l with
  | [] => false
  | x :: _ => decide (x ≠ 0) && l.all (fun v => v == x)

def has_nonzero_const_col (k : ℕ) (rows : List (List ℚ)) : Bool :=
  (List.range k).any (fun j => is_nonzero_const (col_vals rows j))

/-- `sm.add_constant`: (new width, new rows). -/
def add_constant (k : ℕ) (rows : List (List ℚ)) : ℕ × List (List ℚ) :=
  if has_nonzero_const_col k rows then (k, rows)
  else (k + 1, rows.map (fun r => 1 :: r))

def xtx (k : ℕ) (rows : List (List ℚ)) : Matrix (Fin k) (Fin k) ℚ :=
  Matrix.of (fun i j => (rows.map (fun r => r.getD i 0 * r.getD j 0)).sum)

def xty (k : ℕ) (rows : List (List ℚ)) (y : List ℚ) : Fin k → ℚ :=
  fun i => ((rows.zip y).map (fun ry => ry.1.getD i 0 * ry.2)).sum

/-- OLS coefficients by the normal equations. -/
def ols_fit (k : ℕ) (rows : List (List ℚ)) (y : List ℚ) : List ℚ :=
  (List.finRange k).map
    (((xtx k rows).det)⁻¹ • ((xtx k rows).adjugate.mulVec (xty k rows y)))

lemma ols_fit_length (k : ℕ) (rows : List (List ℚ)) (y : List ℚ) :
    (ols_fit k rows y).length = k := by
  simp [ols_fit]

def dot_prod (a b : List ℚ) : ℚ := ((a.zip b).map (fun p => p.1 * p.2)).sum

/-! ### `fit_ols_for_currency` (`events_to_currency_ols.py`)

`Xc = sm.add_constant(X)` is computed on the FULL table (line 200),
then `split_idx = int(len(df) * 0.8)` (`= ⌊0.8 n⌋ = 4n/5`) cuts both
`Xc` and `y`; the model is fitted on the first slice and RMSE/MAE are
computed on the rest. -/

/-- `int(len(df) * 0.8)`. -/
def fit_split (n : ℕ) : ℕ := 4 * n / 5

/-- The design matrix of `fit_ols_for_currency`: width and rows after
`add_constant` on the whole table's features. -/
def fit_design (table : List (List ℚ × ℚ)) (k : ℕ) : ℕ × List (List ℚ) :=
  add_constant k (table.map (·.1))

/-- The fitted coefficients: OLS on the first `4n/5` design rows and
targets. -/
def fit_coef (table : List (List ℚ × ℚ)) (k : ℕ) : List ℚ :=
  ols_fit (fit_design table k).1
    ((fit_design table k).2.take (fit_split table.length))
    ((table.map (·.2)).take (fit_split table.length))

/-- Test-slice residuals: predictions minus targets on the rows after
the split. -/
def fit_errs (table : List (List ℚ × ℚ)) (k : ℕ) : List ℚ :=
  (((fit_design table k).2.drop (fit_split table.length)).map
      (fun r => dot_prod (fit_coef table k) r)).zip
    ((table.map (·.2)).drop (fit_split table.length)) |>.map
    (fun p => p.1 - p.2)

structure FitResult where
  coef : List ℚ
  msq : ℚ
  mae : ℚ
  n_train : ℕ
  n_test : ℕ
deriving DecidableEq, Repr

/-- `fit_ols_for_currency(df)`: coefficients from the train slice,
mean-squared error (the square of the reported RMSE) and mean absolute
error from the test slice. -/
def fit_ols_for_currency (table : List (List ℚ × ℚ)) (k : ℕ) : FitResult :=
  ⟨fit_coef table k,
   ((fit_errs table k).map (fun e => e ^ 2)).sum / ((fit_errs table k).length : ℚ),
   ((fit_errs table k).map (fun e => |e|)).sum / ((fit_errs table k).length : ℚ),
   fit_split table.length,
   table.length - fit_split table.length⟩

def c10_t1 : List (List ℚ × ℚ) :=
  [([1], 0), ([1], 0), ([1], 0), ([1], 0), ([1], 0)]

def c10_t2 : List (List ℚ × ℚ) :=
  [([1], 0), ([1], 0), ([1], 0), ([1], 0), ([2], 0)]

/-- C10 counterexample: two 5-row tables agreeing on their first
`⌊0.8·5⌋ = 4` rows for which `fit_ols_for_currency` returns different
coefficient vectors: in `c10_t1` the single feature column is the
constant 1 over ALL rows, so `sm.add_constant` skips the intercept
(1 coefficient); in `c10_t2` the held-out 5th row makes the column
non-constant, the intercept is added, and 2 coefficients come back.
The test rows leak into the design through `add_constant`'s
has-constant check. -/
theorem C10_counterexample :
    c10_t1.length = c10_t2.length ∧
    c10_t1.take (4 * c10_t1.length / 5) = c10_t2.take (4 * c10_t2.length / 5) ∧
    (fit_ols_for_currency c10_t1 1).coef ≠ (fit_ols_for_currency c10_t2 1).coef := by
  have hd1 : (fit_design c10_t1 1).1 = 1 := by
    unfold fit_design add_constant
    rw [if_pos (by decide)]
  have hd2 : (fit_design c10_t2 1).1 = 2 := by
    unfold fit_design add_constant
    rw [if_neg (by decide)]
  have h1 : (fit_ols_for_currency c10_t1 1).coef.length = 1 := by
    show (fit_coef c10_t1 1).length = 1
    unfold fit_coef
    rw [ols_fit_length, hd1]
  have h2 : (fit_ols_for_currency c10_t2 1).coef.length = 2 := by
    show (fit_coef c10_t2 1).length = 2
    unfold fit_coef
    rw [ols_fit_length, hd2]
  refine ⟨rfl, rfl, fun h => ?_⟩
  rw [h, h2] at h1
  exact absurd h1 (by decide)

/-- C10 (amended): whenever the `add_constant` has-constant check
agrees on the two tables (in particular whenever neither holds a
column that is constant-and-nonzero over ALL its rows, so the
intercept is prepended in both), two tables of equal length agreeing
on their first `⌊0.8·n⌋` rows get identical fitted coefficients: the
chronologically last 20% then only feeds the RMSE/MAE metrics.
Without that proviso the claim fails (see the counterexample): the
has-constant check reads the full table, including the test rows. -/
theorem C10_train_only_coefficients :
    ∀ (t1 t2 : List (List ℚ × ℚ)) (k : ℕ),
      t1.length = t2.length →
      t1.take (4 * t1.length / 5) = t2.take (4 * t2.length / 5) →
      has_nonzero_const_col k (t1.map (·.1)) =
        has_nonzero_const_col k (t2.map (·.1)) →
      (fit_ols_for_currency t1 k).coef = (fit_ols_for_currency t2 k).coef := by
  intro t1 t2 k hlen htake hconst
  show fit_coef t1 k = fit_coef t2 k
  have key : ∀ f : List ℚ × ℚ → List ℚ,
      (t1.map f).take (4 * t1.length / 5) =
        (t2.map f).take (4 * t2.length / 5) := by
    intro f
    rw [← List.map_take, ← List.map_take, htake]
  have keyy : (t1.map (·.2)).take (4 * t1.length / 5) =
      (t2.map (·.2)).take (4 * t2.length / 5) := by
    rw [← List.map_take, ← List.map_take, htake]
  unfold fit_coef fit_design add_constant fit_split
  rw [← hconst]
  by_cases hb : has_nonzero_const_col k (t1.map (·.1))
  · rw [if_pos hb, if_pos hb]
    show ols_fit k ((t1.map (·.1)).take (4 * t1.length / 5)) _ =
      ols_fit k ((t2.map (·.1)).take (4 * t2.length / 5)) _
    rw [key (·.1), keyy]
  · rw [if_neg hb, if_neg hb]
    show ols_fit (k + 1)
        (((t1.map (·.1)).map (fun r => 1 :: r)).take (4 * t1.length / 5)) _ =
      ols_fit (k + 1)
        (((t2.map (·.1)).map (fun r => 1 :: r)).take (4 * t2.length / 5)) _
    simp only [List.map_map]
    rw [key ((fun r => (1:ℚ) :: r) ∘ (·.1)), keyy]

def c10_t3 : List (List ℚ × ℚ) :=
  [([1], 0), ([2], 1), ([3], 0), ([4], 1), ([5], 7)]

def c10_t4 : List (List ℚ × ℚ) :=
  [([1], 0), ([2], 1), ([3], 0), ([4], 1), ([5], 9)]

/-- Witness for C10 at concrete inputs: two tables differing only in
the 5th (test) row, neither with a constant-nonzero column, get
identical coefficients. -/
theorem C10_train_only_coefficients_witness :
    (fit_ols_for_currency c10_t3 1).coef = (fit_ols_for_currency c10_t4 1).coef :=
  C10_train_only_coefficients c10_t3 c10_t4 1 rfl rfl (by decide)

/-! ### The regression of `build_ols_event_treemap` (`make_visuals.py`)

`X = X.loc[:, (X.sum(axis=0) > 0)]` drops the event-count columns
whose TOTAL is zero (the comment says "drop columns with zero variance
(all zeros)", but the test is on the sum, so a column constant at a
nonzero value is retained); when no column remains the function
returns `None` without error; otherwise `sm.add_constant` and
`sm.OLS(y, X_const).fit()` run and `results.params.drop("const")`
yields one coefficient per kept column. -/

/-- Event-count columns (name, daily counts aligned to the panel). -/
abbrev CountCol := Str × List ℕ

/-- `X.loc[:, (X.sum(axis=0) > 0)]`. -/
def keep_pos_sum (X : List CountCol) : List CountCol :=
  X.filter (fun c => 0 < c.2.sum)

/-- Row-major design matrix of the kept columns over `n` panel rows. -/
def counts_design (kept : List CountCol) (n : ℕ) : List (List ℚ) :=
  (List.range n).map (fun i => kept.map (fun c => ((c.2.getD i 0 : ℕ) : ℚ)))

/-- Design after `sm.add_constant`. -/
def bo_design (X : List CountCol) (y : List ℚ) : ℕ × List (List ℚ) :=
  add_constant (keep_pos_sum X).length (counts_design (keep_pos_sum X) y.length)

/-- `results.params` of the treemap regression. -/
def bo_params (X : List CountCol) (y : List ℚ) : List ℚ :=
  ols_fit (bo_design X y).1 (bo_design X y).2 y

/-- `build_ols_event_treemap`'s regression outcome: `none` when no
column survives the zero-count filter, otherwise the per-column
coefficients (`params.drop("const", errors="ignore")`). -/
def build_ols_coeffs (X : List CountCol) (y : List ℚ) :
    Option (List (Str × ℚ)) :=
  if keep_pos_sum X = [] then none
  else some (((keep_pos_sum X).map (·.1)).zip
    (if (bo_design X y).1 = (keep_pos_sum X).length then bo_params X y
     else (bo_params X y).drop 1))

/-- C5 counterexample: a category column constant at 1 (zero variance,
nonzero sum) passes the filter — the regressor does NOT drop every
zero-variance column, only the all-zero ones. -/
theorem C5_counterexample :
    keep_pos_sum [("A".toList, [1, 1])] = [("A".toList, [1, 1])] ∧
      sample_var [(1:ℚ), 1] = 0 := by
  refine ⟨by decide, ?_⟩
  norm_num [sample_var, mean]

/-- C5 (amended): before fitting, the regressor drops exactly the
event-category columns whose counts are all zero (zero total) — a
zero-variance column with a nonzero constant value is retained — and
whenever no column remains it returns no coefficients (`None`) rather
than raising. -/
theorem C5_zero_count_filter :
    (∀ (X : List CountCol) (c : CountCol), c ∈ X →
        (c ∈ keep_pos_sum X ↔ ¬ ∀ v ∈ c.2, v = 0)) ∧
    (∀ X y, keep_pos_sum X = [] → build_ols_coeffs X y = none) ∧
    (∀ X y, keep_pos_sum X ≠ [] → (build_ols_coeffs X y).isSome = true) := by
  refine ⟨?_, ?_, ?_⟩
  · intro X c hc
    unfold keep_pos_sum
    rw [List.mem_filter]
    constructor
    · rintro ⟨-, hpos⟩ hall
      have hz : c.2.sum = 0 := List.sum_eq_zero hall
      simp [hz] at hpos
    · intro hno
      refine ⟨hc, ?_⟩
      have hnz : c.2.sum ≠ 0 := fun h => hno (List.sum_eq_zero_iff.1 h)
      simpa using Nat.pos_of_ne_zero hnz
  · intro X y h
    unfold build_ols_coeffs
    rw [if_pos h]
  · intro X y h
    unfold build_ols_coeffs
    rw [if_neg h]
    rfl

/-- Witness for C5 at a concrete input: a column with a nonzero count
survives and the regressor returns coefficients. -/
theorem C5_zero_count_filter_witness :
    (build_ols_coeffs [("B".toList, [0, 1])] [0, 0]).isSome = true :=
  C5_zero_count_filter.2.2 [("B".toList, [0, 1])] [0, 0] (by decide)

/-! ### Percentage-change columns

All three derivation sites (`update_historical_currencies.add_pct_change`,
`historical_currencies.fetch_currency_data`,
`events_to_currency_ols.prepare_model_table`) compute
`df[cur].pct_change().round(3) * 100`: the price ratio minus one is
ROUNDED TO 3 DECIMALS before the scaling by 100, and the first date of
each series gets a missing value. -/

/-- The tail of the pct-change column: one value per consecutive price
pair. -/
def pct_change_go (prev : ℚ) : List ℚ → List ℚ
  | [] => []
  | c :: cs => round3 (c / prev - 1) * 100 :: pct_change_go c cs

/-- `df[cur].pct_change().round(3) * 100` over a dense price series:
`none` for the first date. -/
def add_pct_change : List ℚ → List (Option ℚ)
  | [] => []
  | p :: rest => none :: (pct_change_go p rest).map some

lemma pct_change_go_getD (l : List ℚ) :
    ∀ (prev : ℚ) (i : ℕ), i < l.length →
      (pct_change_go prev l).getD i 0 =
        round3 (l.getD i 0 / (prev :: l).getD i 0 - 1) * 100 := by
  induction l with
  | nil => intro prev i hi; simp at hi
  | cons c cs ih =>
      intro prev i hi
      cases i with
      | zero => rfl
      | succ j =>
          have hj : j < cs.length := Nat.lt_of_succ_lt_succ hi
          unfold pct_change_go
          simp only [List.getD_cons_succ]
          exact ih c j hj

/-- C8 counterexample: for prices `[10000, 10001]` the code stores
`round(1/10000, 3) * 100 = 0`, not the exact
`(10001/10000 − 1) × 100 = 1/100`: the ratio is rounded to 3 decimals
before the scaling, so the claimed exact identity fails. -/
theorem C8_counterexample :
    add_pct_change [10000, 10001] = [none, some 0] ∧
      ((10001 : ℚ) / 10000 - 1) * 100 = 1/100 ∧ (0:ℚ) ≠ 1/100 := by
  refine ⟨?_, by norm_num, by norm_num⟩
  show [none, some (round3 ((10001:ℚ)/10000 - 1) * 100)] = [none, some 0]
  have h1 : ((10001 : ℚ) / 10000 - 1) = 1/10000 := by norm_num
  rw [h1]
  have h2 : round3 (1/10000) = 0 := by
    unfold round3 round_half_even
    have hf : ⌊(1000 : ℚ) * (1/10000)⌋ = 0 := by
      rw [show (1000 : ℚ) * (1/10000) = 1/10 by norm_num]
      rw [Int.floor_eq_zero_iff]
      constructor <;> norm_num
    rw [hf]
    norm_num
  rw [h2]
  norm_num

lemma pct_change_go_length (l : List ℚ) :
    ∀ prev, (pct_change_go prev l).length = l.length := by
  induction l with
  | nil => intro prev; rfl
  | cons c cs ih =>
      intro prev
      simp only [pct_change_go, List.length_cons, ih c]

/-- C8 (amended): the derived percentage-change column has one entry
per price, the first date's value is absent, and at every later date
`t` the value equals `round₃(price[t]/price[t−1] − 1) × 100`, where
`round₃` rounds to 3 decimal places (half to even) — i.e. the exact
relative change is rounded BEFORE the scaling by 100. -/
theorem C8_pct_change_formula :
    (∀ prices : List ℚ, (add_pct_change prices).length = prices.length) ∧
    (∀ (p : ℚ) (rest : List ℚ), (add_pct_change (p :: rest)).getD 0 none = none) ∧
    (∀ (prices : List ℚ) (t : ℕ), 0 < t → t < prices.length →
        (add_pct_change prices).getD t none =
          some (round3 (prices.getD t 0 / prices.getD (t - 1) 0 - 1) * 100)) := by
  refine ⟨?_, fun p rest => rfl, ?_⟩
  · intro prices
    cases prices with
    | nil => rfl
    | cons p rest =>
        simp only [add_pct_change, List.length_cons, List.length_map,
          pct_change_go_length]
  · intro prices t ht hlen
    cases prices with
    | nil => simp at hlen
    | cons p rest =>
        cases t with
        | zero => exact absurd ht (by decide)
        | succ j =>
            have hj : j < rest.length := Nat.lt_of_succ_lt_succ hlen
            have hjg : j < (pct_change_go p rest).length := by
              rw [pct_change_go_length]; exact hj
            simp only [add_pct_change, List.getD_cons_succ, Nat.add_sub_cancel]
            rw [List.getD_eq_getElem?_getD, List.getElem?_map,
              List.getElem?_eq_getElem hjg]
            simp only [Option.map_some', Option.getD_some, List.getD_cons_succ]
            congr 1
            rw [← List.getD_eq_getElem (pct_change_go p rest) 0 hjg]
            exact pct_change_go_getD rest p j hj

/-- Witness for C8 at a concrete input: for prices `[1, 2]` the value
at the second date is `round₃(2/1 − 1) × 100 = 100`. -/
theorem C8_pct_change_formula_witness :
    (add_pct_change [1, 2]).getD 1 none = some 100 := by
  have h := C8_pct_change_formula.2.2 [1, 2] 1 (by decide) (by decide)
  rw [h]
  have h1 : ((2:ℚ) / 1 - 1) = 1 := by norm_num
  norm_num [h1, round3, round_half_even, Int.floor_intCast]

end EventsMarkets
